import Mathlib

set_option maxRecDepth 4000

/-!
Shallow embedding of the hamui terminal rendering core
(`src/buffer.rs`, `src/lib.rs`) and proofs of the specification claims.

Modelling conventions:
* `u16` values are `Nat`; every `u16` arithmetic operation of the source is
  made explicit through `sub16` / `add16`, which model Rust arithmetic with
  overflow checks enabled (the default dev profile): overflow is a panic.
* Fallible Rust code (`IOResult`) is modelled with `Res`: `ok` for a normal
  return, `err` for a returned `std::io::Error`, `panic` for a Rust panic
  (out-of-bounds slice indexing, arithmetic overflow).
* The terminal output sink (`Stdout`) is modelled as an explicit list of
  emitted writes where a claim needs it (`Buffer.commit`); cursor moves
  issued by the event handlers outside `commit` are not observable by any
  claim and are not recorded.
-/

namespace Hamui

/-- Model of `Vec2 = (u16, u16)` from `src/drawing.rs`.  `.1` is the x
component (Rust `.0`), `.2` is the y component (Rust `.1`). -/
abbrev Vec2 := Nat × Nat

/-- Kinds of `std::io::Error` returned by the buffer code
(`ErrorKind::NotFound` for the row/column lookups, `ErrorKind::InvalidInput`
for the column-bound check in `write_cell`). -/
inductive ErrKind where
  | rowInvalid
  | colInvalid
  | colTooLarge
deriving DecidableEq, Repr

/-- Kinds of Rust panic that the modelled code can hit. -/
inductive PanicKind where
  | indexOutOfBounds
  | subOverflow
  | addOverflow
deriving DecidableEq, Repr

/-- Result of running a piece of the Rust code: a normal return, a returned
`io::Error`, or a panic. -/
inductive Res (α : Type) where
  | ok (a : α)
  | err (e : ErrKind)
  | panic (p : PanicKind)
deriving DecidableEq, Repr

def Res.bind : Res α → (α → Res β) → Res β
  | .ok a, f => f a
  | .err e, _ => .err e
  | .panic p, _ => .panic p

instance : Monad Res where
  pure := Res.ok
  bind := Res.bind

/-- Rust `u16` subtraction `a - b` with overflow checks (default dev
profile): underflow panics. -/
def sub16 (a b : Nat) : Res Nat :=
  if b ≤ a then .ok (a - b) else .panic .subOverflow

/-- Rust `u16` addition `a + b` with overflow checks (default dev profile):
overflow panics. -/
def add16 (a b : Nat) : Res Nat :=
  if a + b ≤ 65535 then .ok (a + b) else .panic .addOverflow

/-- `BufCell` from `src/buffer.rs`. -/
structure BufCell where
  char : Char
  empty : Bool
deriving DecidableEq, Repr

/-- `BufCell::EMPTY`. -/
def BufCell.EMPTY : BufCell := ⟨' ', true⟩

/-- `BufCell::from_char`. -/
def BufCell.from_char (c : Char) : BufCell := ⟨c, c == ' '⟩

/-- `Row` from `src/buffer.rs`. -/
abbrev Row := List BufCell

/-- `BufCell::as_row`: a row of `width` copies of `EMPTY`. -/
def BufCell.as_row (width : Nat) : Row := List.replicate width BufCell.EMPTY

/-- `Buffer` from `src/buffer.rs` (the `stdout` handle is not part of the
state; emitted terminal writes are returned by `commit`). -/
structure Buffer where
  size : Vec2
  vec : List Row
  screen_vec : List Row
deriving DecidableEq, Repr

/-- `Buffer::new`. -/
def Buffer.new (size : Vec2) : Buffer :=
  ⟨size, List.replicate size.2 (BufCell.as_row size.1),
    List.replicate size.2 (BufCell.as_row size.1)⟩

/-- `Buffer::get_cell`: reads the `screen_vec` (committed) grid. -/
def Buffer.get_cell (b : Buffer) (pos : Vec2) : Res BufCell :=
  match b.screen_vec.get? pos.2 with
  | none => .err .rowInvalid
  | some row =>
    match row.get? pos.1 with
    | none => .err .colInvalid
    | some c => .ok c

/-- `<Buffer as BufferWrite>::write_cell`.  An `empty` cell is written
straight to `screen_vec`, any other cell to `vec`.  The source guards the
store with `pos.0 > row.len()` (strict), so a write at `pos.0 == row.len()`
reaches the slice indexing `row[pos.0 as usize] = buf` and panics. -/
def Buffer.write_cell (b : Buffer) (pos : Vec2) (buf : BufCell) : Res Buffer :=
  let tgt := if buf.empty then b.screen_vec else b.vec
  match tgt.get? pos.2 with
  | none => .err .rowInvalid
  | some row =>
    if pos.1 > row.length then .err .colTooLarge
    else if pos.1 < row.length then
      let tgt' := tgt.set pos.2 (row.set pos.1 buf)
      .ok (if buf.empty then { b with screen_vec := tgt' } else { b with vec := tgt' })
    else .panic .indexOutOfBounds

/-- Loop body of `BufferWrite::write_str`: writes `from_char` of each
character of `cs` at consecutive x offsets `pos.0 + i` (a `u16` addition;
the `i as u16` cast of the source truncates mod 2^16). -/
def writeChars (pos : Vec2) : Buffer → Nat → List Char → Res Buffer
  | b, _, [] => .ok b
  | b, i, c :: cs => do
    let x ← add16 pos.1 (i % 65536)
    let b' ← b.write_cell (x, pos.2) (BufCell.from_char c)
    writeChars pos b' (i + 1) cs

/-- `BufferWrite::write_str` (strings modelled as `List Char`). -/
def Buffer.write_str (b : Buffer) (pos : Vec2) (s : List Char) : Res Buffer :=
  writeChars pos b 0 s

/-- The `for col in start..end` store loop of `Buffer::fill_range`:
`row[col] = buf` panics when `col` is out of range of the row. -/
def fillLoop (row : Row) (buf : BufCell) (s e : Nat) : Res Row :=
  if s < e then
    if s < row.length then fillLoop (row.set s buf) buf (s + 1) e
    else .panic .indexOutOfBounds
  else .ok row
termination_by e - s

/-- `Buffer::fill_range`: fills columns `[start, end)` of pending row
`row_y` with `buf` (the row is taken from `vec`). -/
def Buffer.fill_range (b : Buffer) (start e row_y : Nat) (buf : BufCell) : Res Buffer :=
  match b.vec.get? row_y with
  | none => .err .rowInvalid
  | some row => do
    let row' ← fillLoop row buf start e
    .ok { b with vec := b.vec.set row_y row' }

/-- `BufferChange` from `src/buffer.rs`. -/
structure BufferChange where
  loc : Vec2
  cell : BufCell
deriving DecidableEq, Repr

/-- `Buffer::consume_changes`: forwards a change to `write_cell` only when
its cell differs from the committed cell currently at its position. -/
def Buffer.consume_changes (b : Buffer) : List BufferChange → Res Buffer
  | [] => .ok b
  | ch :: rest => do
    let cell ← b.get_cell ch.loc
    if cell = ch.cell then b.consume_changes rest
    else do
      let b' ← b.write_cell ch.loc ch.cell
      b'.consume_changes rest

/-- One terminal write emitted by `commit` for a changed row: the
`cursor::MoveTo(moveCol, moveRow)` immediately followed by the full row
text written through `stdout.write`. -/
structure RowWrite where
  moveCol : Nat
  moveRow : Nat
  line : List Char
deriving DecidableEq, Repr

/-- The per-cell merge of the commit diff pass: keep the committed cell
when the incoming cell is empty but the committed one is not, or when the
characters already match; otherwise take the incoming cell. -/
def mergeCell (screen col : BufCell) : BufCell :=
  if col.empty && !screen.empty then screen
  else if screen.char = col.char then screen
  else col

/-- The per-row merge of the commit diff pass: the source iterates the
pending row's cells and looks each index up in the committed row, skipping
indices the committed row does not have, so committed cells beyond the
pending row's length are kept unchanged. -/
def mergeRow : Row → Row → Row
  | scr, [] => scr
  | [], _ => []
  | s :: scr, c :: pr => mergeCell s c :: mergeRow scr pr

/-- The row loop of `Buffer::commit`, processing pending rows from index
`y` upward against the committed rows: a row is skipped when it equals the
all-EMPTY row `er`, when the committed grid has no such row, or when the
committed row already equals it; otherwise the merged row replaces the
committed row and one `RowWrite` is emitted for it. -/
def commitLoop (er : Row) : Nat → List Row → List Row → List Row × List RowWrite
  | _, scr, [] => (scr, [])
  | _, [], _ :: _ => ([], [])
  | y, s :: scr, p :: pr =>
    let rest := commitLoop er (y + 1) scr pr
    if p = er then (s :: rest.1, rest.2)
    else if s = p then (s :: rest.1, rest.2)
    else
      let ns := mergeRow s p
      (ns :: rest.1, ⟨0, y, ns.map BufCell.char⟩ :: rest.2)

/-- `Buffer::commit`: runs the diff pass and then resets every pending row
to the all-EMPTY row (`self.vec.fill(BufCell::as_row(self.size.0))` keeps
the list length).  Returns the new buffer and the emitted terminal
writes. -/
def Buffer.commit (b : Buffer) : Buffer × List RowWrite :=
  let er := BufCell.as_row b.size.1
  let res := commitLoop er 0 b.screen_vec b.vec
  ({ b with screen_vec := res.1, vec := List.replicate b.vec.length er }, res.2)

/-- Rust `Vec::resize(n, fill)`: truncate to `n` elements or pad with
copies of `fill`. -/
def rustResize (l : List α) (n : Nat) (fill : α) : List α :=
  if n ≤ l.length then l.take n else l ++ List.replicate (n - l.length) fill

/-- `Buffer::resize_vec`: resize the columns of every existing row first,
then the row list itself. -/
def resize_vec (g : List Row) (size : Vec2) : List Row :=
  rustResize (g.map fun r => rustResize r size.1 BufCell.EMPTY) size.2
    (BufCell.as_row size.1)

/-- `Buffer::resize`: resizes both grids and updates `size`. -/
def Buffer.resize (b : Buffer) (size : Vec2) : Buffer :=
  { size := size, vec := resize_vec b.vec size,
    screen_vec := resize_vec b.screen_vec size }

/-- The cell of grid `g` at position `p` (x = `p.1`, y = `p.2`), when both
indices are in range. -/
def cellAt (g : List Row) (p : Vec2) : Option BufCell :=
  match g.get? p.2 with
  | none => none
  | some row => row.get? p.1

/-- Grid-shape invariant of a `Buffer`: both grids have `size.2` rows of
`size.1` cells each, and both dimensions fit in a `u16`. -/
def Buffer.WF (b : Buffer) : Prop :=
  b.vec.length = b.size.2 ∧ b.screen_vec.length = b.size.2 ∧
  (∀ r ∈ b.vec, r.length = b.size.1) ∧
  (∀ r ∈ b.screen_vec, r.length = b.size.1) ∧
  b.size.1 ≤ 65535 ∧ b.size.2 ≤ 65535

instance (b : Buffer) : Decidable b.WF := by
  unfold Buffer.WF; infer_instance

/-- `State` from `src/lib.rs` (`input` modelled as `List Char`). -/
structure State where
  window_size : Vec2
  keyboard_input_mode : Bool
  clicked : Vec2
  input : List Char
  cursor_pos : Vec2
  min_x : Nat
deriving DecidableEq, Repr

/-- The `State` built by `Frame::new`: pointer mode, origin positions,
empty input, `min_x = 0` (the only value `min_x` ever takes — no code path
assigns it afterwards). -/
def initState (window_size : Vec2) : State :=
  ⟨window_size, false, (0, 0), [], (0, 0), 0⟩

/-- The `MouseEventKind::Moved` arm of `poll_events`: ignored in keyboard
mode, otherwise moves `cursor_pos` to the event position (the real
terminal-cursor move it also issues is not observable here). -/
def handleMouseMoved (s : State) (col row : Nat) : State :=
  if s.keyboard_input_mode then s
  else { s with cursor_pos := (col, row) }

/-- The `KeyCode::Esc` arm of `poll_events`: toggles the mode; entering
keyboard mode copies `cursor_pos.0` into `clicked.0`, leaving it clears
`input`. -/
def handleEsc (s : State) : State :=
  let m := !s.keyboard_input_mode
  if m then { s with keyboard_input_mode := m, clicked := (s.cursor_pos.1, s.clicked.2) }
  else { s with keyboard_input_mode := m, input := [] }

/-- The `KeyCode::Left` arm of `poll_events`: no-op at `min_x`, otherwise
`cursor_pos.0 -= 1` (a `u16` subtraction). -/
def handleLeft (s : State) : Res State :=
  if s.cursor_pos.1 = s.min_x then .ok s
  else do
    let x ← sub16 s.cursor_pos.1 1
    .ok { s with cursor_pos := (x, s.cursor_pos.2) }

/-- The `KeyCode::Right` arm of `poll_events`: no-op exactly when
`cursor_pos.0 == window_size.0 - 51` (`window_size` is `buffer.size`, the
subtraction is in `u16`), otherwise `cursor_pos.0 += 1`. -/
def handleRight (bufSize : Vec2) (s : State) : Res State := do
  let limit ← sub16 bufSize.1 51
  if s.cursor_pos.1 = limit then .ok s
  else do
    let x ← add16 s.cursor_pos.1 1
    .ok { s with cursor_pos := (x, s.cursor_pos.2) }

/-- The `KeyCode::Backspace` arm of `poll_events`, up to (and not
including) the trailing `self.step()` redraw, which runs the caller's draw
closure and `commit` and is outside this transition.  The state mutations
that the source performs before a fallible buffer call are only observable
on the `ok` path here, because `Res.err` and `Res.panic` carry no state;
no claim concerns the state after an aborted tick. -/
def handleBackspace (s : State) (b : Buffer) : Res (State × Buffer) :=
  if s.cursor_pos.1 = s.min_x then .ok (s, b)
  else do
    let write_at := s.clicked.1
    let real_pos ← sub16 s.cursor_pos.1 write_at
    if real_pos > s.input.length % 65536 ∨ real_pos = 0 then .ok (s, b)
    else do
      let input' := s.input.eraseIdx (real_pos - 1)
      let cx ← sub16 s.cursor_pos.1 1
      let b1 ← b.fill_range write_at ((input'.length + 1) % 65536) s.cursor_pos.2 BufCell.EMPTY
      let b2 ← b1.write_str (write_at, s.cursor_pos.2) (List.replicate (input'.length + 1) ' ')
      let b3 ← b2.write_str (write_at, s.cursor_pos.2) input'
      .ok ({ s with input := input', cursor_pos := (cx, s.cursor_pos.2) }, b3)

/-- The plain-character (`KeyCode::Char`, no CONTROL modifier) arm of
`poll_events`, up to the trailing `self.step()` redraw.  This is the only
key handler gated on `keyboard_input_mode`. -/
def handleChar (s : State) (b : Buffer) (c : Char) : Res (State × Buffer) :=
  if s.keyboard_input_mode = false then .ok (s, b)
  else do
    let write_at := s.clicked.1
    let real_pos ← sub16 s.cursor_pos.1 write_at
    if real_pos > s.input.length % 65536 then .ok (s, b)
    else do
      let input' := s.input.insertIdx real_pos c
      let b1 ← b.write_str (write_at, s.cursor_pos.2) input'
      let cx ← add16 s.cursor_pos.1 1
      .ok ({ s with input := input', cursor_pos := (cx, s.cursor_pos.2) }, b1)

/-- The state reached from `initState (100, 30)` by: mouse moved to
column 5, Esc (enter keyboard mode, anchoring `clicked.0` at 5), then one
left arrow.  Its cursor sits one column left of the anchor. -/
def c10state : State := ⟨(100, 30), true, (5, 0), [], (4, 0), 0⟩

/-- What a successful `write_cell` does: it succeeds, keeps the size and
shape, stores the cell in the committed grid (`screen_vec`) when the cell
is empty and in the pending grid (`vec`) otherwise, leaves the other grid
entirely unchanged, and changes no cell at any other position. -/
def WriteFrameSpec (b : Buffer) (p : Vec2) (c : BufCell) : Prop :=
  ∃ b', b.write_cell p c = .ok b' ∧ b'.size = b.size ∧ b'.WF ∧
    (c.empty = true → b'.vec = b.vec ∧ cellAt b'.screen_vec p = some c) ∧
    (c.empty = false → b'.screen_vec = b.screen_vec ∧ cellAt b'.vec p = some c) ∧
    (∀ q : Vec2, q ≠ p →
      cellAt b'.vec q = cellAt b.vec q ∧ cellAt b'.screen_vec q = cellAt b.screen_vec q)

/- ## Helper lemmas -/

@[simp]
theorem Res.bind_ok (a : α) (f : α → Res β) : Res.bind (.ok a) f = f a := rfl

@[simp]
theorem Res.bind_err (e : ErrKind) (f : α → Res β) :
    Res.bind (.err e : Res α) f = .err e := rfl

@[simp]
theorem Res.bind_panic (p : PanicKind) (f : α → Res β) :
    Res.bind (.panic p : Res α) f = .panic p := rfl

@[simp]
theorem Res.monad_bind (x : Res α) (f : α → Res β) : x >>= f = Res.bind x f := rfl

theorem mapFixpoint {α : Type} (f : α → α) :
    ∀ (l : List α), (∀ a ∈ l, f a = a) → l.map f = l
  | [], _ => rfl
  | a :: l, h => by
    rw [List.map_cons, h a (by simp), mapFixpoint f l fun b hb => h b (by simp [hb])]

theorem rustResize_grow (l : List α) (n : Nat) (f : α) (h : l.length ≤ n) :
    rustResize l n f = l ++ List.replicate (n - l.length) f := by
  unfold rustResize
  by_cases h2 : n ≤ l.length
  · have h3 : n = l.length := Nat.le_antisymm h2 h
    subst h3
    simp
  · rw [if_neg h2]

theorem rustResize_shrink (l ext : List α) (f : α) :
    rustResize (l ++ ext) l.length f = l := by
  unfold rustResize
  rw [if_pos (by simp)]
  exact List.take_left l ext

theorem resize_vec_roundtrip (w h wid hei : Nat) (g : List Row)
    (hg : g.length = hei) (hgr : ∀ r ∈ g, r.length = wid)
    (hw : wid ≤ w) (hh : hei ≤ h) :
    resize_vec (resize_vec g (w, h)) (wid, hei) = g := by
  unfold resize_vec
  dsimp only
  have hlen1 : (g.map fun r => rustResize r w BufCell.EMPTY).length = hei := by
    simp [hg]
  rw [rustResize_grow (g.map fun r => rustResize r w BufCell.EMPTY) h
      (BufCell.as_row w) (by rw [hlen1]; exact hh)]
  rw [List.map_append, List.map_map]
  have hfix : (g.map ((fun r => rustResize r wid BufCell.EMPTY) ∘
      (fun r => rustResize r w BufCell.EMPTY))) = g := by
    apply mapFixpoint
    intro r hr
    have hrl : r.length = wid := hgr r hr
    simp only [Function.comp]
    rw [rustResize_grow r w BufCell.EMPTY (by rw [hrl]; exact hw)]
    rw [← hrl]
    exact rustResize_shrink r _ _
  rw [hfix, ← hg]
  exact rustResize_shrink g _ _

theorem mergeRow_length (s p : Row) : (mergeRow s p).length = s.length := by
  induction s generalizing p with
  | nil => cases p <;> rfl
  | cons a s ih =>
    cases p with
    | nil => rfl
    | cons b pr => simp [mergeRow, ih]

theorem mergeRow_get?_of (s p : Row) (x : Nat) (sc pc : BufCell)
    (hs : s.get? x = some sc) (hp : p.get? x = some pc) :
    (mergeRow s p).get? x = some (mergeCell sc pc) := by
  induction s generalizing p x with
  | nil => simp at hs
  | cons a s ih =>
    cases p with
    | nil => simp at hp
    | cons b pr =>
      cases x with
      | zero =>
        simp only [List.get?] at hs hp
        cases hs; cases hp; rfl
      | succ n =>
        simp only [List.get?] at hs hp
        simpa [mergeRow] using ih pr n hs hp

theorem commitLoop_screen_of_get (er : Row) (y : Nat) (scr pend : List Row)
    (k : Nat) (s p : Row) (hs : scr.get? k = some s) (hp : pend.get? k = some p) :
    (commitLoop er y scr pend).1.get? k =
      some (if p = er ∨ s = p then s else mergeRow s p) := by
  induction pend generalizing scr y k with
  | nil => simp at hp
  | cons p0 pr ih =>
    cases scr with
    | nil => simp at hs
    | cons s0 sr =>
      cases k with
      | zero =>
        have hs0 : s0 = s := by simpa using hs
        have hp0 : p0 = p := by simpa using hp
        subst hs0; subst hp0
        by_cases h1 : p0 = er
        · simp [commitLoop, h1]
        · by_cases h2 : s0 = p0 <;> simp [commitLoop, h1, h2]
      | succ n =>
        simp only [List.get?] at hs hp
        have hind := ih (y + 1) sr n hs hp
        by_cases h1 : p0 = er
        · simpa [commitLoop, h1] using hind
        · by_cases h2 : s0 = p0 <;> simpa [commitLoop, h1, h2] using hind

theorem commitLoop_out_ge (er : Row) (y : Nat) (scr pend : List Row) :
    ∀ w ∈ (commitLoop er y scr pend).2, y ≤ w.moveRow := by
  induction pend generalizing scr y with
  | nil => intro w hw; simp [commitLoop] at hw
  | cons p0 pr ih =>
    cases scr with
    | nil => intro w hw; simp [commitLoop] at hw
    | cons s0 sr =>
      intro w hw
      by_cases h1 : p0 = er
      · simp only [commitLoop, if_pos h1] at hw
        exact Nat.le_of_succ_le (ih (y + 1) sr w hw)
      · by_cases h2 : s0 = p0
        · simp only [commitLoop, if_neg h1, if_pos h2] at hw
          exact Nat.le_of_succ_le (ih (y + 1) sr w hw)
        · simp only [commitLoop, if_neg h1, if_neg h2, List.mem_cons] at hw
          rcases hw with hw | hw
          · subst hw; exact Nat.le_refl y
          · exact Nat.le_of_succ_le (ih (y + 1) sr w hw)

theorem commitLoop_filter_of_get (er : Row) (y : Nat) (scr pend : List Row)
    (k : Nat) (s p : Row) (hs : scr.get? k = some s) (hp : pend.get? k = some p)
    (hpe : p ≠ er) (hsp : s ≠ p) :
    (commitLoop er y scr pend).2.filter (fun w => w.moveRow == y + k) =
      [⟨0, y + k, (mergeRow s p).map BufCell.char⟩] := by
  induction pend generalizing scr y k with
  | nil => simp at hp
  | cons p0 pr ih =>
    cases scr with
    | nil => simp at hs
    | cons s0 sr =>
      cases k with
      | zero =>
        have hs0 : s0 = s := by simpa using hs
        have hp0 : p0 = p := by simpa using hp
        subst hs0; subst hp0
        have hrest : ((commitLoop er (y + 1) sr pr).2.filter
            (fun w => w.moveRow == y)) = [] := by
          refine List.filter_eq_nil.2 ?_
          intro w hw
          have hge := commitLoop_out_ge er (y + 1) sr pr w hw
          simp only [beq_iff_eq]
          omega
        simp only [commitLoop, if_neg hpe, if_neg hsp, List.filter_cons]
        simp [hrest]
      | succ n =>
        simp only [List.get?] at hs hp
        have hih := ih (y + 1) sr n hs hp
        have harith : y + 1 + n = y + (n + 1) := by omega
        rw [harith] at hih
        by_cases h1 : p0 = er
        · simpa [commitLoop, h1] using hih
        · by_cases h2 : s0 = p0
          · simpa [commitLoop, h1, h2] using hih
          · simp only [commitLoop, if_neg h1, if_neg h2, List.filter_cons]
            have hne : ((RowWrite.mk 0 y ((mergeRow s0 p0).map BufCell.char)).moveRow
                == y + (n + 1)) = false := by
              simp only [beq_eq_false_iff_ne]
              intro hcontra
              have hy : y = y + (n + 1) := hcontra
              omega
            rw [hne]
            exact hih

theorem commitLoop_out_nil (er : Row) (y : Nat) (scr pend : List Row)
    (h : ∀ r ∈ pend, r = er) : (commitLoop er y scr pend).2 = [] := by
  induction pend generalizing scr y with
  | nil => cases scr <;> rfl
  | cons p0 pr ih =>
    cases scr with
    | nil => rfl
    | cons s0 sr =>
      have h0 : p0 = er := h p0 (by simp)
      simp only [commitLoop, if_pos h0]
      exact ih (y + 1) sr fun r hr => h r (by simp [hr])

theorem write_cell_ok (b : Buffer) (x y : Nat) (c : BufCell) (hwf : b.WF)
    (hx : x < b.size.1) (hy : y < b.size.2) : WriteFrameSpec b (x, y) c := by
  obtain ⟨hv, hs, hvr, hsr, hw1, hw2⟩ := hwf
  cases hc : c.empty with
  | true =>
    have hylen : y < b.screen_vec.length := by rw [hs]; exact hy
    have hrow : b.screen_vec.get? y = some (b.screen_vec.get ⟨y, hylen⟩) :=
      List.get?_eq_get hylen
    set row := b.screen_vec.get ⟨y, hylen⟩ with hrowdef
    have hrl : row.length = b.size.1 := hsr row (List.get?_mem hrow)
    have hxr : x < row.length := by rw [hrl]; exact hx
    have hngt : ¬ row.length < x := by omega
    have hrow2 : b.screen_vec[y]? = some row := by
      rw [← List.get?_eq_getElem?]; exact hrow
    refine ⟨{ b with screen_vec := b.screen_vec.set y (row.set x c) }, ?_, rfl, ?_, ?_, ?_, ?_⟩
    · simp [Buffer.write_cell, hc, hrow2, hxr, hngt]
    · refine ⟨hv, by simpa using hs, hvr, ?_, hw1, hw2⟩
      intro r hr
      rcases List.mem_or_eq_of_mem_set hr with h | h
      · exact hsr r h
      · rw [h, List.length_set]; exact hrl
    · intro _
      refine ⟨rfl, ?_⟩
      simp only [cellAt, List.get?_set_eq_of_lt (row.set x c) hylen]
      exact List.get?_set_eq_of_lt c hxr
    · intro hfalse; rw [hc] at hfalse; exact absurd hfalse (by simp)
    · rintro ⟨qx, qy⟩ hq
      refine ⟨rfl, ?_⟩
      by_cases hqy : qy = y
      · subst hqy
        have hqx : qx ≠ x := by
          intro h; exact hq (by rw [h])
        simp only [cellAt, List.get?_set_eq_of_lt (row.set x c) hylen, hrow]
        exact List.get?_set_ne c row (fun h => hqx h.symm)
      · simp only [cellAt]
        rw [List.get?_set_ne _ _ (fun h => hqy h.symm)]
  | false =>
    have hylen : y < b.vec.length := by rw [hv]; exact hy
    have hrow : b.vec.get? y = some (b.vec.get ⟨y, hylen⟩) :=
      List.get?_eq_get hylen
    set row := b.vec.get ⟨y, hylen⟩ with hrowdef
    have hrl : row.length = b.size.1 := hvr row (List.get?_mem hrow)
    have hxr : x < row.length := by rw [hrl]; exact hx
    have hngt : ¬ row.length < x := by omega
    have hrow2 : b.vec[y]? = some row := by
      rw [← List.get?_eq_getElem?]; exact hrow
    refine ⟨{ b with vec := b.vec.set y (row.set x c) }, ?_, rfl, ?_, ?_, ?_, ?_⟩
    · simp [Buffer.write_cell, hc, hrow2, hxr, hngt]
    · refine ⟨by simpa using hv, hs, ?_, hsr, hw1, hw2⟩
      intro r hr
      rcases List.mem_or_eq_of_mem_set hr with h | h
      · exact hvr r h
      · rw [h, List.length_set]; exact hrl
    · intro hfalse; rw [hc] at hfalse; exact absurd hfalse (by simp)
    · intro _
      refine ⟨rfl, ?_⟩
      simp only [cellAt, List.get?_set_eq_of_lt (row.set x c) hylen]
      exact List.get?_set_eq_of_lt c hxr
    · rintro ⟨qx, qy⟩ hq
      refine ⟨?_, rfl⟩
      by_cases hqy : qy = y
      · subst hqy
        have hqx : qx ≠ x := by
          intro h; exact hq (by rw [h])
        simp only [cellAt, List.get?_set_eq_of_lt (row.set x c) hylen, hrow]
        exact List.get?_set_ne c row (fun h => hqx h.symm)
      · simp only [cellAt]
        rw [List.get?_set_ne _ _ (fun h => hqy h.symm)]

/- ## Claim theorems -/

/-- C1: the claim says a write at an in-range position succeeds and
round-trips through `commit` and `read`, while a write whose column is out
of range — including a column equal to the row length — fails by returning
an `OutOfBounds` error.  The code violates the boundary case: at
`x == row length` the guard `pos.0 > row.len()` passes and the slice store
`row[pos.0]` panics instead of returning an error (contradicting
`write_cell`'s own doc comment, which promises `Err` for unsupported
positions).  The other conjuncts show the error returns for `x > length`
and a missing row, and the successful write/commit/read round trip at an
in-range position of the spec's (10,3) scenario grid. -/
theorem c1_write_bounds_behavior :
    (Buffer.new (3, 2)).write_cell (3, 0) (BufCell.from_char 'X') =
      .panic .indexOutOfBounds ∧
    (Buffer.new (3, 2)).write_cell (4, 0) (BufCell.from_char 'X') =
      .err .colTooLarge ∧
    (Buffer.new (3, 2)).write_cell (0, 2) (BufCell.from_char 'X') =
      .err .rowInvalid ∧
    Res.bind ((Buffer.new (10, 3)).write_cell (2, 1) (BufCell.from_char 'X'))
      (fun b1 => (b1.commit).1.get_cell (2, 1)) = .ok ⟨'X', false⟩ := by
  decide

/-- C2: a successful `write_cell` of an empty cell modifies only the
committed grid at the written position and leaves the pending grid
untouched; a non-empty cell modifies only the pending grid there and
leaves the committed grid untouched (`WriteFrameSpec`). -/
theorem c2_write_targets_one_grid (b : Buffer) (p : Vec2) (c : BufCell)
    (hwf : b.WF) (hx : p.1 < b.size.1) (hy : p.2 < b.size.2) :
    WriteFrameSpec b p c :=
  write_cell_ok b p.1 p.2 c hwf hx hy

theorem c2_write_targets_one_grid_witness :
    (Buffer.new (3, 2)).WF ∧ (1 < 3) ∧ (1 < 2) ∧
    WriteFrameSpec (Buffer.new (3, 2)) (1, 1) (BufCell.from_char 'X') :=
  ⟨by decide, by decide, by decide,
    c2_write_targets_one_grid (Buffer.new (3, 2)) (1, 1) (BufCell.from_char 'X')
      (by decide) (by decide) (by decide)⟩

/-- C3 counterexample: the claim promises exactly one terminal write for
every row whose pending version is non-empty and which exists in the
committed grid, but `commit` additionally skips a row when the committed
row already equals the pending row.  The state is reached through the
public interface: write 'X', commit, write 'X' again; the final commit
emits nothing although the pending row is non-empty and committed row 0
exists. -/
theorem c3_equal_rows_emit_nothing :
    (Buffer.new (1, 1)).write_cell (0, 0) ⟨'X', false⟩ =
      .ok ⟨(1, 1), [[⟨'X', false⟩]], [[BufCell.EMPTY]]⟩ ∧
    (Buffer.mk (1, 1) [[⟨'X', false⟩]] [[BufCell.EMPTY]]).commit =
      (⟨(1, 1), [BufCell.as_row 1], [[⟨'X', false⟩]]⟩, [⟨0, 0, ['X']⟩]) ∧
    (Buffer.mk (1, 1) [BufCell.as_row 1] [[⟨'X', false⟩]]).write_cell (0, 0)
      ⟨'X', false⟩ = .ok ⟨(1, 1), [[⟨'X', false⟩]], [[⟨'X', false⟩]]⟩ ∧
    some [(⟨'X', false⟩ : BufCell)] ≠ some (BufCell.as_row 1) ∧
    (Buffer.mk (1, 1) [[⟨'X', false⟩]] [[⟨'X', false⟩]]).commit.2 = [] := by
  decide

/-- C3 (amended): for every row whose pending version is neither the
all-EMPTY row nor already equal to the existing committed row, `commit`
emits exactly one terminal write for that row — a cursor move to column 0
of row `y` immediately followed by the entire final committed row `y` as a
single line — even if only a subset of cells changed. -/
theorem c3_one_write_per_changed_row (b : Buffer) (y : Nat) (s p : Row)
    (hp : b.vec.get? y = some p) (hs : b.screen_vec.get? y = some s)
    (hpe : p ≠ BufCell.as_row b.size.1) (hsp : s ≠ p) :
    ∃ ns, (b.commit).1.screen_vec.get? y = some ns ∧
      (b.commit).2.filter (fun w => w.moveRow == y) =
        [⟨0, y, ns.map BufCell.char⟩] := by
  refine ⟨mergeRow s p, ?_, ?_⟩
  · have hscr := commitLoop_screen_of_get (BufCell.as_row b.size.1) 0
      b.screen_vec b.vec y s p hs hp
    simp only [Buffer.commit]
    rw [hscr, if_neg (by rintro (h | h); exact hpe h; exact hsp h)]
  · have hout := commitLoop_filter_of_get (BufCell.as_row b.size.1) 0
      b.screen_vec b.vec y s p hs hp hpe hsp
    simpa [Buffer.commit] using hout

theorem c3_one_write_per_changed_row_witness :
    (Buffer.mk (2, 1) [[⟨'A', false⟩, BufCell.EMPTY]]
      [[BufCell.EMPTY, BufCell.EMPTY]]).vec.get? 0 =
        some [⟨'A', false⟩, BufCell.EMPTY] ∧
    (∃ ns, ((Buffer.mk (2, 1) [[⟨'A', false⟩, BufCell.EMPTY]]
        [[BufCell.EMPTY, BufCell.EMPTY]]).commit).1.screen_vec.get? 0 = some ns ∧
      ((Buffer.mk (2, 1) [[⟨'A', false⟩, BufCell.EMPTY]]
        [[BufCell.EMPTY, BufCell.EMPTY]]).commit).2.filter
          (fun w => w.moveRow == 0) = [⟨0, 0, ns.map BufCell.char⟩]) :=
  ⟨by decide,
    c3_one_write_per_changed_row
      (Buffer.mk (2, 1) [[⟨'A', false⟩, BufCell.EMPTY]]
        [[BufCell.EMPTY, BufCell.EMPTY]]) 0
      [BufCell.EMPTY, BufCell.EMPTY] [⟨'A', false⟩, BufCell.EMPTY]
      (by decide) (by decide) (by decide) (by decide)⟩

/-- C4: the commit diff pass never implicitly erases — whenever the
pending cell at a position is empty and the committed cell there is
non-empty, the committed cell survives `commit` unchanged. -/
theorem c4_diff_never_erases (b : Buffer) (x y : Nat) (pr sr : Row)
    (pc sc : BufCell) (hp : b.vec.get? y = some pr) (hpc : pr.get? x = some pc)
    (hs : b.screen_vec.get? y = some sr) (hsc : sr.get? x = some sc)
    (hpe : pc.empty = true) (hse : sc.empty = false) :
    cellAt (b.commit).1.screen_vec (x, y) = some sc := by
  have hscr := commitLoop_screen_of_get (BufCell.as_row b.size.1) 0
    b.screen_vec b.vec y sr pr hs hp
  simp only [Buffer.commit, cellAt]
  rw [hscr]
  by_cases hskip : pr = BufCell.as_row b.size.1 ∨ sr = pr
  · rw [if_pos hskip]
    exact hsc
  · rw [if_neg hskip]
    have hmer := mergeRow_get?_of sr pr x sc pc hsc hpc
    show (mergeRow sr pr).get? x = some sc
    rw [hmer]
    simp [mergeCell, hpe, hse]

theorem c4_diff_never_erases_witness :
    (Buffer.mk (2, 1) [[⟨'Q', false⟩, BufCell.EMPTY]]
      [[BufCell.EMPTY, ⟨'Z', false⟩]]).vec.get? 0 =
        some [⟨'Q', false⟩, BufCell.EMPTY] ∧
    cellAt ((Buffer.mk (2, 1) [[⟨'Q', false⟩, BufCell.EMPTY]]
      [[BufCell.EMPTY, ⟨'Z', false⟩]]).commit).1.screen_vec (1, 0) =
        some ⟨'Z', false⟩ :=
  ⟨by decide,
    c4_diff_never_erases
      (Buffer.mk (2, 1) [[⟨'Q', false⟩, BufCell.EMPTY]]
        [[BufCell.EMPTY, ⟨'Z', false⟩]]) 1 0
      [⟨'Q', false⟩, BufCell.EMPTY] [BufCell.EMPTY, ⟨'Z', false⟩]
      BufCell.EMPTY ⟨'Z', false⟩
      (by decide) (by decide) (by decide) (by decide) (by decide) (by decide)⟩

/-- C5: `consume_changes` (absorb) drops every entry whose cell equals the
committed cell already at its position; with such a change log it returns
the buffer unchanged, and — the pending grid being all-empty, as it is
after every commit — the next `commit` emits no terminal output. -/
theorem c5_absorb_identical_noop (b : Buffer) (log : List BufferChange)
    (hpend : ∀ r ∈ b.vec, r = BufCell.as_row b.size.1)
    (hlog : ∀ ch ∈ log, b.get_cell ch.loc = .ok ch.cell) :
    b.consume_changes log = .ok b ∧ (b.commit).2 = [] := by
  constructor
  · clear hpend
    induction log with
    | nil => rfl
    | cons ch rest ih =>
      have h1 : b.get_cell ch.loc = .ok ch.cell := hlog ch (by simp)
      have h2 := ih fun c hc => hlog c (by simp [hc])
      simp [Buffer.consume_changes, h1, h2]
  · simp only [Buffer.commit]
    exact commitLoop_out_nil _ 0 _ _ hpend

theorem c5_absorb_identical_noop_witness :
    (∀ r ∈ (Buffer.new (2, 2)).vec, r = BufCell.as_row (Buffer.new (2, 2)).size.1) ∧
    (Buffer.new (2, 2)).consume_changes
      [⟨(0, 0), BufCell.EMPTY⟩, ⟨(1, 1), BufCell.EMPTY⟩] = .ok (Buffer.new (2, 2)) ∧
    ((Buffer.new (2, 2)).commit).2 = [] :=
  ⟨by decide,
    (c5_absorb_identical_noop (Buffer.new (2, 2))
      [⟨(0, 0), BufCell.EMPTY⟩, ⟨(1, 1), BufCell.EMPTY⟩]
      (by decide) (by decide)).1,
    (c5_absorb_identical_noop (Buffer.new (2, 2))
      [⟨(0, 0), BufCell.EMPTY⟩, ⟨(1, 1), BufCell.EMPTY⟩]
      (by decide) (by decide)).2⟩

/-- C6: growing a well-formed buffer to any size at least as large in both
dimensions and then resizing back to the original size restores the buffer
exactly — columns are resized before rows, padding with EMPTY on growth
and truncating on shrink, so every original cell survives the round
trip. -/
theorem c6_grow_shrink_roundtrip (b : Buffer) (w h : Nat) (hwf : b.WF)
    (hw : b.size.1 ≤ w) (hh : b.size.2 ≤ h) :
    (b.resize (w, h)).resize b.size = b := by
  obtain ⟨hv, hs, hvr, hsr, _, _⟩ := hwf
  have h1 := resize_vec_roundtrip w h b.size.1 b.size.2 b.vec hv hvr hw hh
  have h2 := resize_vec_roundtrip w h b.size.1 b.size.2 b.screen_vec hs hsr hw hh
  obtain ⟨sz, v, sv⟩ := b
  simp only [Buffer.resize, Buffer.mk.injEq]
  exact ⟨trivial, h1, h2⟩

theorem c6_grow_shrink_roundtrip_witness :
    (Buffer.mk (2, 1) [[⟨'A', false⟩, BufCell.EMPTY]]
      [[BufCell.EMPTY, ⟨'B', false⟩]]).WF ∧
    ((Buffer.mk (2, 1) [[⟨'A', false⟩, BufCell.EMPTY]]
      [[BufCell.EMPTY, ⟨'B', false⟩]]).resize (3, 2)).resize (2, 1) =
      Buffer.mk (2, 1) [[⟨'A', false⟩, BufCell.EMPTY]]
        [[BufCell.EMPTY, ⟨'B', false⟩]] :=
  ⟨by decide,
    c6_grow_shrink_roundtrip
      (Buffer.mk (2, 1) [[⟨'A', false⟩, BufCell.EMPTY]]
        [[BufCell.EMPTY, ⟨'B', false⟩]]) 3 2 (by decide) (by decide) (by decide)⟩

/-- C8 counterexample: the claim says the cursor never crosses the
51-column side panel (`cursor.x` unchanged whenever
`cursor.x < window_width - 51` fails), but the guard in the source is an
equality test.  From the initial state, a mouse move to column 99 (window
width 100) is a reachable state with the cursor beyond the boundary
`100 - 51 = 49`; a right-arrow event then still increments the cursor. -/
theorem c8_right_crosses_panel :
    handleRight (100, 30) (handleMouseMoved (initState (100, 30)) 99 0) =
      .ok ⟨(100, 30), false, (0, 0), [], (100, 0), 0⟩ ∧
    ¬ (99 < 100 - 51) := by
  decide

/-- C8 (amended): on a right-arrow key event the cursor is unchanged
exactly when `cursor.x` equals `window_width - 51`; for every other value
— including cursors already right of that boundary — `cursor.x` increases
by exactly 1. -/
theorem c8_right_equality_guard (bufSize : Vec2) (s : State)
    (h51 : 51 ≤ bufSize.1) (hmax : s.cursor_pos.1 < 65535) :
    handleRight bufSize s =
      .ok (if s.cursor_pos.1 = bufSize.1 - 51 then s
        else { s with cursor_pos := (s.cursor_pos.1 + 1, s.cursor_pos.2) }) := by
  have hadd : s.cursor_pos.1 + 1 ≤ 65535 := hmax
  by_cases hc : s.cursor_pos.1 = bufSize.1 - 51
  · simp [handleRight, sub16, add16, h51, hc]
  · simp [handleRight, sub16, add16, h51, hc, hadd]

theorem c8_right_equality_guard_witness :
    (51 ≤ 100) ∧ (0 < 65535) ∧
    handleRight (100, 30) (initState (100, 30)) =
      .ok (if (initState (100, 30)).cursor_pos.1 = 100 - 51 then initState (100, 30)
        else { initState (100, 30) with
          cursor_pos := ((initState (100, 30)).cursor_pos.1 + 1,
            (initState (100, 30)).cursor_pos.2) }) :=
  ⟨by decide, by decide,
    c8_right_equality_guard (100, 30) (initState (100, 30)) (by decide) (by decide)⟩

theorem fillLoop_spec (buf : BufCell) (e : Nat) :
    ∀ (s : Nat) (row : Row), (s < e → e ≤ row.length) →
    ∃ row', fillLoop row buf s e = .ok row' ∧ row'.length = row.length ∧
      (∀ j, j < s ∨ e ≤ j → row'.get? j = row.get? j) ∧
      (∀ j, s ≤ j → j < e → row'.get? j = some buf) := by
  suffices H : ∀ (n s : Nat) (row : Row), n = e - s → (s < e → e ≤ row.length) →
      ∃ row', fillLoop row buf s e = .ok row' ∧ row'.length = row.length ∧
        (∀ j, j < s ∨ e ≤ j → row'.get? j = row.get? j) ∧
        (∀ j, s ≤ j → j < e → row'.get? j = some buf) by
    intro s row h
    exact H (e - s) s row rfl h
  intro n
  induction n with
  | zero =>
    intro s row hn h
    have hse : ¬ s < e := by omega
    rw [fillLoop, if_neg hse]
    exact ⟨row, rfl, rfl, fun j _ => rfl, fun j h1 h2 => absurd (by omega : s < e) hse⟩
  | succ n ihn =>
    intro s row hn h
    have hse : s < e := by omega
    have hsr : s < row.length := by
      have := h hse; omega
    rw [fillLoop, if_pos hse, if_pos hsr]
    obtain ⟨row', h1, h2, h3, h4⟩ := ihn (s + 1) (row.set s buf) (by omega)
      (by intro _; rw [List.length_set]; exact h hse)
    refine ⟨row', h1, by rw [h2, List.length_set], ?_, ?_⟩
    · intro j hj
      have hjs : j ≠ s := by omega
      rw [h3 j (by omega), List.get?_set_ne buf row (fun hc => hjs hc.symm)]
    · intro j hj1 hj2
      by_cases hjs : j = s
      · subst hjs
        rw [h3 j (by omega), List.get?_set_eq_of_lt buf hsr]
      · exact h4 j (by omega) hj2

theorem fill_range_spec (b : Buffer) (start e y : Nat) (buf : BufCell)
    (hwf : b.WF) (hy : y < b.size.2) (he : start < e → e ≤ b.size.1) :
    ∃ b', b.fill_range start e y buf = .ok b' ∧ b'.size = b.size ∧ b'.WF ∧
      b'.screen_vec = b.screen_vec ∧
      (∀ q : Vec2, q.2 ≠ y ∨ q.1 < start ∨ e ≤ q.1 →
        cellAt b'.vec q = cellAt b.vec q) ∧
      (∀ x, start ≤ x → x < e → cellAt b'.vec (x, y) = some buf) := by
  obtain ⟨hv, hs, hvr, hsr, hw1, hw2⟩ := hwf
  have hylen : y < b.vec.length := by rw [hv]; exact hy
  have hrow : b.vec.get? y = some (b.vec.get ⟨y, hylen⟩) := List.get?_eq_get hylen
  set row := b.vec.get ⟨y, hylen⟩ with hrowdef
  have hrl : row.length = b.size.1 := hvr row (List.get?_mem hrow)
  obtain ⟨row', h1, h2, h3, h4⟩ := fillLoop_spec buf e start row
    (by intro hlt; rw [hrl]; exact he hlt)
  refine ⟨{ b with vec := b.vec.set y row' }, ?_, rfl, ?_, rfl, ?_, ?_⟩
  · simp only [Buffer.fill_range, hrow, h1, Res.monad_bind, Res.bind_ok]
  · refine ⟨by simpa using hv, hs, ?_, hsr, hw1, hw2⟩
    intro r hr
    rcases List.mem_or_eq_of_mem_set hr with hmem | hmem
    · exact hvr r hmem
    · rw [hmem, h2]; exact hrl
  · rintro ⟨qx, qy⟩ hq
    by_cases hqy : qy = y
    · subst hqy
      rcases hq with hq | hq | hq
      · exact absurd rfl hq
      · simp only [cellAt, List.get?_set_eq_of_lt row' hylen, hrow]
        exact h3 qx (Or.inl hq)
      · simp only [cellAt, List.get?_set_eq_of_lt row' hylen, hrow]
        exact h3 qx (Or.inr hq)
    · simp only [cellAt]
      rw [List.get?_set_ne row' b.vec (fun hc => hqy hc.symm)]
  · intro x hx1 hx2
    simp only [cellAt, List.get?_set_eq_of_lt row' hylen]
    exact h4 x hx1 hx2

theorem writeChars_spec (pos : Vec2) :
    ∀ (cs : List Char) (i : Nat) (b : Buffer), b.WF → pos.2 < b.size.2 →
      pos.1 + i + cs.length ≤ b.size.1 →
    ∃ b', writeChars pos b i cs = .ok b' ∧ b'.size = b.size ∧ b'.WF ∧
      (∀ q : Vec2, q.2 ≠ pos.2 ∨ q.1 < pos.1 + i ∨ pos.1 + i + cs.length ≤ q.1 →
        cellAt b'.vec q = cellAt b.vec q ∧
        cellAt b'.screen_vec q = cellAt b.screen_vec q) ∧
      (∀ j c, cs.get? j = some c →
        ((BufCell.from_char c).empty = true →
          cellAt b'.screen_vec (pos.1 + i + j, pos.2) = some (BufCell.from_char c) ∧
          cellAt b'.vec (pos.1 + i + j, pos.2) = cellAt b.vec (pos.1 + i + j, pos.2)) ∧
        ((BufCell.from_char c).empty = false →
          cellAt b'.vec (pos.1 + i + j, pos.2) = some (BufCell.from_char c) ∧
          cellAt b'.screen_vec (pos.1 + i + j, pos.2) =
            cellAt b.screen_vec (pos.1 + i + j, pos.2))) := by
  intro cs
  induction cs with
  | nil =>
    intro i b hwf hy hspan
    exact ⟨b, rfl, rfl, hwf, fun q _ => ⟨rfl, rfl⟩, fun j c hj => by simp at hj⟩
  | cons c cs ih =>
    intro i b hwf hy hspan
    have hw16 : b.size.1 ≤ 65535 := hwf.2.2.2.2.1
    have hilt : pos.1 + i < b.size.1 := by
      simp only [List.length_cons] at hspan; omega
    have hi65 : i % 65536 = i := Nat.mod_eq_of_lt (by omega)
    have hadd : add16 pos.1 (i % 65536) = .ok (pos.1 + i) := by
      rw [hi65]; simp only [add16, if_pos (by omega : pos.1 + i ≤ 65535)]
    obtain ⟨b1, hb1, hb1sz, hb1wf, hb1e, hb1ne, hb1fr⟩ :=
      write_cell_ok b (pos.1 + i) pos.2 (BufCell.from_char c) hwf hilt hy
    obtain ⟨b', hb', hbsz', hbwf', hfr', hcell'⟩ := ih (i + 1) b1 hb1wf
      (by rw [hb1sz]; exact hy)
      (by rw [hb1sz]; simp only [List.length_cons] at hspan; omega)
    refine ⟨b', ?_, by rw [hbsz', hb1sz], hbwf', ?_, ?_⟩
    · simp only [writeChars, Res.monad_bind, hadd, Res.bind_ok, hb1, hb']
    · intro q hq
      have hq1 : q ≠ (pos.1 + i, pos.2) := by
        rcases hq with hq | hq | hq
        · intro hc2; rw [hc2] at hq; exact hq rfl
        · intro hc2; rw [hc2] at hq; omega
        · intro hc2; rw [hc2] at hq
          simp only [List.length_cons] at hq; omega
      have hq2 : q.2 ≠ pos.2 ∨ q.1 < pos.1 + (i + 1) ∨
          pos.1 + (i + 1) + cs.length ≤ q.1 := by
        rcases hq with hq | hq | hq
        · exact Or.inl hq
        · exact Or.inr (Or.inl (by omega))
        · simp only [List.length_cons] at hq; exact Or.inr (Or.inr (by omega))
      obtain ⟨hv1, hs1⟩ := hb1fr q hq1
      obtain ⟨hv2, hs2⟩ := hfr' q hq2
      exact ⟨by rw [hv2, hv1], by rw [hs2, hs1]⟩
    · intro j c' hj
      cases j with
      | zero =>
        have hc' : c' = c := by
          have := hj
          simp only [List.get?] at this
          exact (Option.some.injEq _ _ ▸ this).symm
        subst hc'
        have hq2 : ((pos.1 + i + 0, pos.2) : Vec2).2 ≠ pos.2 ∨
            (pos.1 + i + 0, pos.2).1 < pos.1 + (i + 1) ∨
            pos.1 + (i + 1) + cs.length ≤ (pos.1 + i + 0, pos.2).1 := by
          exact Or.inr (Or.inl (by omega))
        obtain ⟨hv2, hs2⟩ := hfr' (pos.1 + i + 0, pos.2) hq2
        constructor
        · intro hemp
          obtain ⟨hveq, hsc⟩ := hb1e hemp
          refine ⟨?_, ?_⟩
          · rw [show pos.1 + i + 0 = pos.1 + i by omega] at hs2 ⊢
            rw [hs2]
            rw [show ((pos.1 + i, pos.2) : Vec2) = (pos.1 + i, pos.2) from rfl]
            exact hsc
          · rw [hv2, hveq]
        · intro hemp
          obtain ⟨hseq, hvc⟩ := hb1ne hemp
          refine ⟨?_, ?_⟩
          · rw [show pos.1 + i + 0 = pos.1 + i by omega] at hv2 ⊢
            rw [hv2]
            exact hvc
          · rw [hs2, hseq]
      | succ n =>
        have hjn : cs.get? n = some c' := by simpa using hj
        have harith : pos.1 + (i + 1) + n = pos.1 + i + (n + 1) := by omega
        have hcell := hcell' n c' hjn
        rw [harith] at hcell
        have hne : ((pos.1 + i + (n + 1), pos.2) : Vec2) ≠ (pos.1 + i, pos.2) := by
          intro hc2
          have := congrArg Prod.fst hc2
          simp only at this
          omega
        obtain ⟨hv1, hs1⟩ := hb1fr (pos.1 + i + (n + 1), pos.2) hne
        constructor
        · intro hemp
          obtain ⟨ha, hb2⟩ := hcell.1 hemp
          exact ⟨ha, by rw [hb2, hv1]⟩
        · intro hemp
          obtain ⟨ha, hb2⟩ := hcell.2 hemp
          exact ⟨ha, by rw [hb2, hs1]⟩

theorem handleBackspace_spec (s : State) (b : Buffer)
    (hmin : s.cursor_pos.1 ≠ s.min_x)
    (hwf : b.WF) (hy : s.cursor_pos.2 < b.size.2)
    (hspan : s.clicked.1 + s.input.length ≤ b.size.1)
    (hlt : s.clicked.1 < s.cursor_pos.1)
    (hle : s.cursor_pos.1 - s.clicked.1 ≤ s.input.length) :
    ∃ b', handleBackspace s b =
        .ok ({ s with
                input := s.input.eraseIdx (s.cursor_pos.1 - s.clicked.1 - 1),
                cursor_pos := (s.cursor_pos.1 - 1, s.cursor_pos.2) }, b') ∧
      b'.size = b.size ∧ b'.WF ∧
      (∀ i, i < s.input.length →
        cellAt b'.screen_vec (s.clicked.1 + i, s.cursor_pos.2) = some BufCell.EMPTY) ∧
      (∀ i c, (s.input.eraseIdx (s.cursor_pos.1 - s.clicked.1 - 1)).get? i = some c →
        c ≠ ' ' →
        cellAt b'.vec (s.clicked.1 + i, s.cursor_pos.2) =
          some (BufCell.from_char c)) := by
  have hw16 : b.size.1 ≤ 65535 := hwf.2.2.2.2.1
  have hlen65 : s.input.length % 65536 = s.input.length :=
    Nat.mod_eq_of_lt (by omega)
  have hrp : sub16 s.cursor_pos.1 s.clicked.1 =
      .ok (s.cursor_pos.1 - s.clicked.1) := by
    simp [sub16, Nat.le_of_lt hlt]
  have hguard : ¬ (s.cursor_pos.1 - s.clicked.1 > s.input.length % 65536 ∨
      s.cursor_pos.1 - s.clicked.1 = 0) := by
    rw [hlen65]; omega
  have hrpm1 : s.cursor_pos.1 - s.clicked.1 - 1 < s.input.length := by omega
  have hlen' : (s.input.eraseIdx (s.cursor_pos.1 - s.clicked.1 - 1)).length =
      s.input.length - 1 := by
    rw [List.length_eraseIdx]; simp [hrpm1]
  have hlenp1 : (s.input.eraseIdx (s.cursor_pos.1 - s.clicked.1 - 1)).length + 1 =
      s.input.length := by omega
  have hsub1 : sub16 s.cursor_pos.1 1 = .ok (s.cursor_pos.1 - 1) := by
    simp [sub16, (by omega : 1 ≤ s.cursor_pos.1)]
  have hmod2 : ((s.input.eraseIdx (s.cursor_pos.1 - s.clicked.1 - 1)).length + 1)
      % 65536 = (s.input.eraseIdx (s.cursor_pos.1 - s.clicked.1 - 1)).length + 1 :=
    Nat.mod_eq_of_lt (by omega)
  obtain ⟨b1, hfr, hsz1, hwf1, hscr1, hfrv, hfrbuf⟩ := fill_range_spec b s.clicked.1
    ((s.input.eraseIdx (s.cursor_pos.1 - s.clicked.1 - 1)).length + 1)
    s.cursor_pos.2 BufCell.EMPTY hwf hy (by intro _; omega)
  obtain ⟨b2, hw2, hsz2, hwf2, hfr2, hcell2⟩ :=
    writeChars_spec (s.clicked.1, s.cursor_pos.2)
      (List.replicate
        ((s.input.eraseIdx (s.cursor_pos.1 - s.clicked.1 - 1)).length + 1) ' ')
      0 b1 hwf1 (by rw [hsz1]; exact hy)
      (by rw [hsz1]; simp only [List.length_replicate]; omega)
  obtain ⟨b3, hw3, hsz3, hwf3, hfr3, hcell3⟩ :=
    writeChars_spec (s.clicked.1, s.cursor_pos.2)
      (s.input.eraseIdx (s.cursor_pos.1 - s.clicked.1 - 1)) 0 b2 hwf2
      (by rw [hsz2, hsz1]; exact hy)
      (by rw [hsz2, hsz1]; omega)
  refine ⟨b3, ?_, by rw [hsz3, hsz2, hsz1], hwf3, ?_, ?_⟩
  · simp only [handleBackspace, if_neg hmin, Res.monad_bind, hrp, Res.bind_ok,
      if_neg hguard, hmod2, hsub1, hfr, Buffer.write_str, hw2, hw3]
  · intro i hi
    have hility : i < (s.input.eraseIdx
        (s.cursor_pos.1 - s.clicked.1 - 1)).length + 1 := by omega
    have hrep : (List.replicate
        ((s.input.eraseIdx (s.cursor_pos.1 - s.clicked.1 - 1)).length + 1)
          ' ').get? i = some ' ' := by
      rw [List.get?_eq_getElem?, List.getElem?_replicate]
      simp [hility]
    have hsp2a := ((hcell2 i ' ' hrep).1 (by decide)).1
    have hpos : s.clicked.1 + 0 + i = s.clicked.1 + i := by omega
    rw [hpos] at hsp2a
    have hspemp : BufCell.from_char ' ' = BufCell.EMPTY := by decide
    rw [hspemp] at hsp2a
    by_cases hii : i < (s.input.eraseIdx (s.cursor_pos.1 - s.clicked.1 - 1)).length
    · obtain ⟨c3, hc3⟩ : ∃ c3, (s.input.eraseIdx
          (s.cursor_pos.1 - s.clicked.1 - 1)).get? i = some c3 :=
        ⟨_, List.get?_eq_get hii⟩
      by_cases hc3e : (BufCell.from_char c3).empty = true
      · have h3 := ((hcell3 i c3 hc3).1 hc3e).1
        rw [hpos] at h3
        have hc3sp : c3 = ' ' := by
          have := hc3e
          simp only [BufCell.from_char, beq_iff_eq] at this
          exact this
        rw [h3, hc3sp, hspemp]
      · have hc3f : (BufCell.from_char c3).empty = false :=
          Bool.eq_false_iff.mpr hc3e
        have h3 := ((hcell3 i c3 hc3).2 hc3f).2
        rw [hpos] at h3
        rw [h3, hsp2a]
    · have hieq : i = (s.input.eraseIdx
          (s.cursor_pos.1 - s.clicked.1 - 1)).length := by omega
      have hq := (hfr3 (s.clicked.1 + i, s.cursor_pos.2)
        (Or.inr (Or.inr (by simp only []; omega)))).2
      rw [hq, hsp2a]
  · intro i c hc hcsp
    have hc3f : (BufCell.from_char c).empty = false := by
      simp only [BufCell.from_char]
      exact beq_eq_false_iff_ne.mpr hcsp
    have h3 := ((hcell3 i c hc).2 hc3f).1
    have hpos : s.clicked.1 + 0 + i = s.clicked.1 + i := by omega
    rw [hpos] at h3
    exact h3

theorem handleBackspace_flag (s : State) (b : Buffer) (m : Bool) :
    handleBackspace { s with keyboard_input_mode := m } b =
      Res.bind (handleBackspace s b)
        (fun p => .ok ({ p.1 with keyboard_input_mode := m }, p.2)) := by
  obtain ⟨ws, km, cl, inp, cp, mx⟩ := s
  simp only [handleBackspace]
  by_cases h1 : cp.1 = mx
  · simp [h1]
  · rw [if_neg h1, if_neg h1]
    simp only [Res.monad_bind]
    cases hsub : sub16 cp.1 cl.1 with
    | ok rp =>
      simp only [Res.bind_ok]
      by_cases h2 : rp > inp.length % 65536 ∨ rp = 0
      · simp [h2]
      · rw [if_neg h2, if_neg h2]
        cases hs1 : sub16 cp.1 1 with
        | ok cx =>
          simp only [Res.bind_ok]
          cases hfill : b.fill_range cl.1
              (((inp.eraseIdx (rp - 1)).length + 1) % 65536) cp.2
              BufCell.EMPTY with
          | ok b1 =>
            simp only [Res.bind_ok]
            cases hw1 : b1.write_str (cl.1, cp.2)
                (List.replicate ((inp.eraseIdx (rp - 1)).length + 1) ' ') with
            | ok b2 =>
              simp only [Res.bind_ok]
              cases hw2 : b2.write_str (cl.1, cp.2) (inp.eraseIdx (rp - 1)) with
              | ok b3 => simp
              | err e => simp
              | panic p => simp
            | err e => simp
            | panic p => simp
          | err e => simp
          | panic p => simp
        | err e => simp
        | panic p => simp
    | err e => simp
    | panic p => simp

theorem add16_no_sub (a b : Nat) : add16 a b ≠ .panic .subOverflow := by
  unfold add16
  split <;> simp

theorem write_cell_no_sub (b : Buffer) (pos : Vec2) (buf : BufCell) :
    b.write_cell pos buf ≠ .panic .subOverflow := by
  unfold Buffer.write_cell
  dsimp only
  cases hrow : (if buf.empty = true then b.screen_vec else b.vec).get? pos.2 with
  | none => simp
  | some row =>
    dsimp only
    by_cases h1 : pos.1 > row.length
    · rw [if_pos h1]; simp
    · rw [if_neg h1]
      by_cases h2 : pos.1 < row.length
      · rw [if_pos h2]; simp
      · rw [if_neg h2]; simp

theorem writeChars_no_sub (pos : Vec2) :
    ∀ (cs : List Char) (i : Nat) (b : Buffer),
      writeChars pos b i cs ≠ .panic .subOverflow := by
  intro cs
  induction cs with
  | nil => intro i b; simp [writeChars]
  | cons c cs ih =>
    intro i b
    simp only [writeChars, Res.monad_bind]
    cases hadd : add16 pos.1 (i % 65536) with
    | ok x =>
      simp only [Res.bind_ok]
      cases hw : b.write_cell (x, pos.2) (BufCell.from_char c) with
      | ok b1 => simp only [Res.bind_ok]; exact ih (i + 1) b1
      | err e => simp
      | panic p =>
        simp only [Res.bind_panic]
        intro hcontra
        have hp : p = PanicKind.subOverflow := by injection hcontra
        exact write_cell_no_sub b (x, pos.2) (BufCell.from_char c)
          (by rw [hw, hp])
    | err e => simp
    | panic p =>
      simp only [Res.bind_panic]
      intro hcontra
      have hp : p = PanicKind.subOverflow := by injection hcontra
      exact add16_no_sub pos.1 (i % 65536) (by rw [hadd, hp])

theorem fillLoop_no_sub (buf : BufCell) (e : Nat) :
    ∀ (s : Nat) (row : Row), fillLoop row buf s e ≠ .panic .subOverflow := by
  suffices H : ∀ (n s : Nat) (row : Row), n = e - s →
      fillLoop row buf s e ≠ .panic .subOverflow by
    intro s row
    exact H (e - s) s row rfl
  intro n
  induction n with
  | zero =>
    intro s row hn
    have hse : ¬ s < e := by omega
    rw [fillLoop, if_neg hse]
    simp
  | succ n ihn =>
    intro s row hn
    have hse : s < e := by omega
    rw [fillLoop, if_pos hse]
    by_cases hsr : s < row.length
    · rw [if_pos hsr]
      exact ihn (s + 1) (row.set s buf) (by omega)
    · rw [if_neg hsr]
      simp

theorem fill_range_no_sub (b : Buffer) (start e y : Nat) (buf : BufCell) :
    b.fill_range start e y buf ≠ .panic .subOverflow := by
  unfold Buffer.fill_range
  cases hrow : b.vec.get? y with
  | none => simp
  | some row =>
    simp only [Res.monad_bind]
    cases hfl : fillLoop row buf start e with
    | ok row' => simp
    | err er => simp
    | panic p =>
      simp only [Res.bind_panic]
      intro hcontra
      have hp : p = PanicKind.subOverflow := by injection hcontra
      exact fillLoop_no_sub buf e start row (by rw [hfl, hp])

theorem handleBackspace_no_sub (s : State) (b : Buffer)
    (hge : s.clicked.1 ≤ s.cursor_pos.1) :
    handleBackspace s b ≠ .panic .subOverflow := by
  unfold handleBackspace
  by_cases h1 : s.cursor_pos.1 = s.min_x
  · simp [h1]
  · rw [if_neg h1]
    have hsub : sub16 s.cursor_pos.1 s.clicked.1 =
        .ok (s.cursor_pos.1 - s.clicked.1) := by simp [sub16, hge]
    simp only [Res.monad_bind, hsub, Res.bind_ok]
    by_cases h2 : s.cursor_pos.1 - s.clicked.1 > s.input.length % 65536 ∨
        s.cursor_pos.1 - s.clicked.1 = 0
    · simp [h2]
    · rw [if_neg h2]
      have hc1 : 1 ≤ s.cursor_pos.1 := by omega
      have hsub1 : sub16 s.cursor_pos.1 1 = .ok (s.cursor_pos.1 - 1) := by
        simp [sub16, hc1]
      simp only [hsub1, Res.bind_ok]
      cases hfill : b.fill_range s.clicked.1
          (((s.input.eraseIdx (s.cursor_pos.1 - s.clicked.1 - 1)).length + 1)
            % 65536) s.cursor_pos.2 BufCell.EMPTY with
      | ok b1 =>
        simp only [Res.bind_ok]
        cases hw1 : b1.write_str (s.clicked.1, s.cursor_pos.2)
            (List.replicate
              ((s.input.eraseIdx (s.cursor_pos.1 - s.clicked.1 - 1)).length + 1)
              ' ') with
        | ok b2 =>
          simp only [Res.bind_ok]
          cases hw2 : b2.write_str (s.clicked.1, s.cursor_pos.2)
              (s.input.eraseIdx (s.cursor_pos.1 - s.clicked.1 - 1)) with
          | ok b3 => simp
          | err e => simp
          | panic p =>
            simp only [Res.bind_panic]
            intro hcontra
            have hp : p = PanicKind.subOverflow := by injection hcontra
            exact writeChars_no_sub (s.clicked.1, s.cursor_pos.2) _ 0 b2
              (by rw [← Buffer.write_str, hw2, hp])
        | err e => simp
        | panic p =>
          simp only [Res.bind_panic]
          intro hcontra
          have hp : p = PanicKind.subOverflow := by injection hcontra
          exact writeChars_no_sub (s.clicked.1, s.cursor_pos.2) _ 0 b1
            (by rw [← Buffer.write_str, hw1, hp])
      | err e => simp
      | panic p =>
        simp only [Res.bind_panic]
        intro hcontra
        have hp : p = PanicKind.subOverflow := by injection hcontra
        exact fill_range_no_sub b s.clicked.1 _ s.cursor_pos.2 BufCell.EMPTY
          (by rw [hfill, hp])

theorem handleChar_no_sub (s : State) (b : Buffer) (c : Char)
    (hge : s.clicked.1 ≤ s.cursor_pos.1) :
    handleChar s b c ≠ .panic .subOverflow := by
  unfold handleChar
  by_cases h1 : s.keyboard_input_mode = false
  · simp [h1]
  · rw [if_neg h1]
    have hsub : sub16 s.cursor_pos.1 s.clicked.1 =
        .ok (s.cursor_pos.1 - s.clicked.1) := by simp [sub16, hge]
    simp only [Res.monad_bind, hsub, Res.bind_ok]
    by_cases h2 : s.cursor_pos.1 - s.clicked.1 > s.input.length % 65536
    · simp [h2]
    · rw [if_neg h2]
      cases hw1 : b.write_str (s.clicked.1, s.cursor_pos.2)
          (s.input.insertIdx (s.cursor_pos.1 - s.clicked.1) c) with
      | ok b1 =>
        simp only [Res.bind_ok]
        cases hadd : add16 s.cursor_pos.1 1 with
        | ok cx => simp
        | err e => simp
        | panic p =>
          simp only [Res.bind_panic]
          intro hcontra
          have hp : p = PanicKind.subOverflow := by injection hcontra
          exact add16_no_sub s.cursor_pos.1 1 (by rw [hadd, hp])
      | err e => simp
      | panic p =>
        simp only [Res.bind_panic]
        intro hcontra
        have hp : p = PanicKind.subOverflow := by injection hcontra
        exact writeChars_no_sub (s.clicked.1, s.cursor_pos.2) _ 0 b
          (by rw [← Buffer.write_str, hw1, hp])

/-- C7: in keyboard mode (with the program invariant `min_x = 0`, the only
value the source ever assigns), when the cursor is right of the anchor and
`relPos = cursor.x - anchor.x` lies in `[1, edit_text.length]`, a backspace
removes the character at `relPos - 1` from the stored text, decrements
`cursor.x` by one, clears `edit_text.length + 1` cells (the length after
removal, i.e. the original length many cells) of the committed grid
starting at `anchor.x` — the stale tail — and rewrites the new text
starting at `anchor.x` (non-space characters land in the pending grid,
space characters are the already-cleared committed cells). -/
theorem c7_keyboard_backspace (s : State) (b : Buffer)
    (hmode : s.keyboard_input_mode = true) (hmin : s.min_x = 0)
    (hwf : b.WF) (hy : s.cursor_pos.2 < b.size.2)
    (hspan : s.clicked.1 + s.input.length ≤ b.size.1)
    (hlt : s.clicked.1 < s.cursor_pos.1)
    (hle : s.cursor_pos.1 - s.clicked.1 ≤ s.input.length) :
    ∃ b', handleBackspace s b =
        .ok ({ s with
                input := s.input.eraseIdx (s.cursor_pos.1 - s.clicked.1 - 1),
                cursor_pos := (s.cursor_pos.1 - 1, s.cursor_pos.2) }, b') ∧
      (∀ i, i < s.input.length →
        cellAt b'.screen_vec (s.clicked.1 + i, s.cursor_pos.2) =
          some BufCell.EMPTY) ∧
      (∀ i c, (s.input.eraseIdx (s.cursor_pos.1 - s.clicked.1 - 1)).get? i =
          some c → c ≠ ' ' →
        cellAt b'.vec (s.clicked.1 + i, s.cursor_pos.2) =
          some (BufCell.from_char c)) := by
  have hmin2 : s.cursor_pos.1 ≠ s.min_x := by rw [hmin]; omega
  obtain ⟨b', h1, _, _, h4, h5⟩ := handleBackspace_spec s b hmin2 hwf hy hspan hlt hle
  exact ⟨b', h1, h4, h5⟩

theorem c7_keyboard_backspace_witness :
    ∃ b', handleBackspace ⟨(10, 2), true, (0, 0), ['a', 'b', 'c'], (3, 0), 0⟩
        (Buffer.new (10, 2)) =
        .ok (⟨(10, 2), true, (0, 0), ['a', 'b'], (2, 0), 0⟩, b') ∧
      (∀ i, i < 3 → cellAt b'.screen_vec (0 + i, 0) = some BufCell.EMPTY) ∧
      (∀ i c, (['a', 'b'] : List Char).get? i = some c → c ≠ ' ' →
        cellAt b'.vec (0 + i, 0) = some (BufCell.from_char c)) :=
  c7_keyboard_backspace ⟨(10, 2), true, (0, 0), ['a', 'b', 'c'], (3, 0), 0⟩
    (Buffer.new (10, 2)) rfl rfl (by decide) (by decide) (by decide) (by decide)
    (by decide)

/-- C9: the backspace handler never reads the input mode — in pointer mode
(`keyboard_input_mode = false`), under the same guards (`cursor.x` not at
`min_x`, `relPos` within the stored text), it removes the character,
decrements the cursor and performs the same buffer writes, producing
exactly the result it produces in keyboard mode (up to the untouched mode
flag); only the printable-character handler is gated on keyboard mode, and
in pointer mode it is a strict no-op. -/
theorem c9_backspace_ignores_mode (s : State) (b : Buffer)
    (hmode : s.keyboard_input_mode = false)
    (hmin : s.cursor_pos.1 ≠ s.min_x)
    (hwf : b.WF) (hy : s.cursor_pos.2 < b.size.2)
    (hspan : s.clicked.1 + s.input.length ≤ b.size.1)
    (hlt : s.clicked.1 < s.cursor_pos.1)
    (hle : s.cursor_pos.1 - s.clicked.1 ≤ s.input.length) :
    ∃ b', handleBackspace s b =
        .ok ({ s with
                input := s.input.eraseIdx (s.cursor_pos.1 - s.clicked.1 - 1),
                cursor_pos := (s.cursor_pos.1 - 1, s.cursor_pos.2) }, b') ∧
      handleBackspace { s with keyboard_input_mode := true } b =
        .ok ({ s with
                keyboard_input_mode := true,
                input := s.input.eraseIdx (s.cursor_pos.1 - s.clicked.1 - 1),
                cursor_pos := (s.cursor_pos.1 - 1, s.cursor_pos.2) }, b') ∧
      (∀ c, handleChar s b c = .ok (s, b)) := by
  obtain ⟨b', h1, _, _, _, _⟩ := handleBackspace_spec s b hmin hwf hy hspan hlt hle
  refine ⟨b', h1, ?_, ?_⟩
  · rw [handleBackspace_flag s b true, h1]
    rfl
  · intro c
    simp [handleChar, hmode]

theorem c9_backspace_ignores_mode_witness :
    ∃ b', handleBackspace ⟨(10, 2), false, (0, 0), ['a', 'b', 'c'], (3, 0), 0⟩
        (Buffer.new (10, 2)) =
        .ok (⟨(10, 2), false, (0, 0), ['a', 'b'], (2, 0), 0⟩, b') ∧
      handleBackspace ⟨(10, 2), true, (0, 0), ['a', 'b', 'c'], (3, 0), 0⟩
        (Buffer.new (10, 2)) =
        .ok (⟨(10, 2), true, (0, 0), ['a', 'b'], (2, 0), 0⟩, b') ∧
      (∀ c, handleChar ⟨(10, 2), false, (0, 0), ['a', 'b', 'c'], (3, 0), 0⟩
          (Buffer.new (10, 2)) c =
        .ok (⟨(10, 2), false, (0, 0), ['a', 'b', 'c'], (3, 0), 0⟩,
          Buffer.new (10, 2))) :=
  c9_backspace_ignores_mode ⟨(10, 2), false, (0, 0), ['a', 'b', 'c'], (3, 0), 0⟩
    (Buffer.new (10, 2)) rfl (by decide) (by decide) (by decide) (by decide)
    (by decide) (by decide)

/-- C10: the printable-character and backspace handlers compute `relPos`
by the unguarded `u16` subtraction `cursor.x - anchor.x` (modelled with
overflow checks, as in a dev-profile build, where underflow panics).  A
state with the cursor left of the anchor is reachable — mouse move to
column 5, Esc (anchoring at 5), one left arrow (`min_x` being 0, not tied
to the anchor) — and there both handlers hit the subtraction underflow
rather than no-opping; with the precondition `anchor.x ≤ cursor.x` neither
handler can hit a subtraction underflow. -/
theorem c10_relpos_underflow (s : State) (b : Buffer) (c : Char)
    (hge : s.clicked.1 ≤ s.cursor_pos.1) :
    handleLeft (handleEsc (handleMouseMoved (initState (100, 30)) 5 0)) =
      .ok c10state ∧
    c10state.cursor_pos.1 < c10state.clicked.1 ∧
    handleBackspace c10state (Buffer.new (100, 30)) = .panic .subOverflow ∧
    handleChar c10state (Buffer.new (100, 30)) 'a' = .panic .subOverflow ∧
    handleBackspace s b ≠ .panic .subOverflow ∧
    handleChar s b c ≠ .panic .subOverflow := by
  refine ⟨by decide, by decide, by decide, by decide, ?_, ?_⟩
  · exact handleBackspace_no_sub s b hge
  · exact handleChar_no_sub s b c hge

theorem c10_relpos_underflow_witness :
    (initState (10, 10)).clicked.1 ≤ (initState (10, 10)).cursor_pos.1 ∧
    (handleLeft (handleEsc (handleMouseMoved (initState (100, 30)) 5 0)) =
        .ok c10state ∧
      c10state.cursor_pos.1 < c10state.clicked.1 ∧
      handleBackspace c10state (Buffer.new (100, 30)) = .panic .subOverflow ∧
      handleChar c10state (Buffer.new (100, 30)) 'a' = .panic .subOverflow ∧
      handleBackspace (initState (10, 10)) (Buffer.new (2, 2)) ≠
        .panic .subOverflow ∧
      handleChar (initState (10, 10)) (Buffer.new (2, 2)) 'x' ≠
        .panic .subOverflow) :=
  ⟨by decide,
    c10_relpos_underflow (initState (10, 10)) (Buffer.new (2, 2)) 'x' (by decide)⟩

end Hamui
